import Mathlib

/-!
Verification development for the Creator Spark Registry
(a single-file Python CLI, `src/analyzer.py`).

Shallow embedding notes:
* Dates are modelled as integers (days); `today` is an explicit parameter.
  `staleness_days` is `today - last_boosted`, as in the Python property.
* `heat` (a Python float) is modelled as a rational number; `save` rounds
  it to two decimals, as `round(self.heat, 2)` does on write.
* Each CLI command is a pure function from the stored record list (and the
  parsed arguments) to its result.  Commands that persist return the new
  stored list inside `Except String`; a `.error` result models
  `raise SystemExit(msg)`, which aborts before any save, so the stored
  file keeps its previous contents.
* Python truthiness tests (`if args.limit:`, `if args.note:`,
  `if args.last_boosted`) are modelled explicitly: `none` and the empty
  string / zero are falsy.
-/

/-- The Creator record (dataclass `Creator` in `analyzer.py`). -/
structure Creator where
  handle : String
  platform : String
  category : String
  note : String
  heat : ℚ
  last_seen : Int
  last_boosted : Int
deriving DecidableEq, Repr

/-- Staleness in days, the derived property `Creator.staleness_days`:
`(date.today() - self.last_boosted).days`. -/
def Creator.staleness_days (today : Int) (c : Creator) : Int :=
  today - c.last_boosted

/-- Rounding a rational to two decimal places, modelling `round(x, 2)`. -/
def round2 (q : ℚ) : ℚ :=
  ((round (q * 100) : ℤ) : ℚ) / 100

/-- One JSON object of the storage file: fields other than `handle` and
`platform` are optional on load (`entry.get(...)`). -/
structure Payload where
  handle : String
  platform : String
  category : Option String
  note : Option String
  heat : Option ℚ
  last_seen : Option Int
  last_boosted : Option Int
deriving DecidableEq, Repr

/-- Serialization `Creator.to_payload`: one record, heat rounded to 2 decimals. -/
def Creator.to_payload (c : Creator) : Payload :=
  { handle := c.handle
    platform := c.platform
    category := some c.category
    note := some c.note
    heat := some (round2 c.heat)
    last_seen := some c.last_seen
    last_boosted := some c.last_boosted }

/-- Date coercion `_coerce_date`: a falsy (absent) value becomes today. -/
def coerce_date (today : Int) (value : Option Int) : Int :=
  value.getD today

/-- Loading of one parsed JSON entry (the loop body of `load_creators`):
missing category/note default to the empty string, missing heat to 0,
missing dates to today. -/
def Payload.to_creator (today : Int) (p : Payload) : Creator :=
  { handle := p.handle
    platform := p.platform
    category := p.category.getD ""
    note := p.note.getD ""
    heat := p.heat.getD 0
    last_seen := coerce_date today p.last_seen
    last_boosted := coerce_date today p.last_boosted }

/-- Loader `load_creators`: parse every entry of the stored JSON array. -/
def load_creators (today : Int) (raw : List Payload) : List Creator :=
  raw.map (Payload.to_creator today)

/-- Saver `save_creators`: serialize the full list, overwriting the file. -/
def save_creators (creators : List Creator) : List Payload :=
  creators.map Creator.to_payload

/-- Python `str.lower()`, modelled as characterwise ASCII case folding. -/
def strLower (s : String) : String :=
  ⟨s.data.map Char.toLower⟩

/-- Python `str.strip()`: drop leading and trailing whitespace. -/
def strStrip (s : String) : String :=
  ⟨((s.data.dropWhile Char.isWhitespace).reverse.dropWhile Char.isWhitespace).reverse⟩

/-- Python `handle.startswith("@")`. -/
def startsWithAt (s : String) : Bool :=
  match s.data with
  | [] => false
  | c :: _ => c == '@'

/-- Handle normalization `_normalize_handle`: strip whitespace, prepend `@`
when absent. -/
def normalize_handle (handle : String) : String :=
  let handle := strStrip handle
  if startsWithAt handle then handle else "@" ++ handle

/-- Case-insensitive handle comparison, `a.lower() == b.lower()`. -/
def sameHandle (a b : String) : Bool :=
  strLower a == strLower b

/-- Python slicing `l[:n]` for an integer `n` (negative counts from the end). -/
def pySlice (n : Int) (l : List Creator) : List Creator :=
  if 0 ≤ n then l.take n.toNat else l.take (l.length - (-n).toNat)

/-- Arguments of the `list` subcommand (`--limit`, `--sort`, `--min-heat`). -/
structure ListArgs where
  limit : Option Int
  sort : String
  min_heat : ℚ

/-- What `cmd_list` prints: a "no matches" message or the table rows. -/
inductive ListOutput where
  | noMatches
  | table (rows : List Creator)
deriving DecidableEq, Repr

/-- Comparator for `sort(key=lambda c: c.heat, reverse=True)`:
`a` may come before `b` iff `a.heat ≥ b.heat`. -/
def heatGe (a b : Creator) : Bool :=
  b.heat ≤ a.heat

/-- Comparator for `sort(key=lambda c: c.staleness_days, reverse=True)`. -/
def staleGe (today : Int) (a b : Creator) : Bool :=
  b.staleness_days today ≤ a.staleness_days today

/-- The heat filter of `cmd_list`: `[c for c in creators if c.heat >= args.min_heat]`. -/
def listFiltered (args : ListArgs) (creators : List Creator) : List Creator :=
  creators.filter (fun c => args.min_heat ≤ c.heat)

/-- The sorting step of `cmd_list`. -/
def listSorted (today : Int) (args : ListArgs) (creators : List Creator) : List Creator :=
  if args.sort == "heat" then (listFiltered args creators).mergeSort heatGe
  else (listFiltered args creators).mergeSort (staleGe today)

/-- The truncation step of `cmd_list`: `if args.limit: filtered = filtered[:args.limit]`
(`None` and `0` are falsy, so they skip the slice). -/
def listTruncated (today : Int) (args : ListArgs) (creators : List Creator) : List Creator :=
  match args.limit with
  | some n => if n ≠ 0 then pySlice n (listSorted today args creators)
              else listSorted today args creators
  | none => listSorted today args creators

/-- Command `list` (`cmd_list`): filter, sort, truncate, and print rows or a
"no matches" line. -/
def cmd_list (today : Int) (args : ListArgs) (creators : List Creator) : ListOutput :=
  if (listTruncated today args creators).isEmpty then ListOutput.noMatches
  else ListOutput.table (listTruncated today args creators)

/-- What `cmd_summary` prints for a non-empty registry. -/
structure Summary where
  avg_heat : ℚ
  hottest : Creator
  stalest : Creator
deriving DecidableEq, Repr

/-- Python `max(xs, key=k)` starting from `c`: a later element replaces the
current best only when its key is strictly greater, so the first maximum wins. -/
def pyMaxBy {β : Type} [LinearOrder β] (key : Creator → β) (c : Creator)
    (l : List Creator) : Creator :=
  l.foldl (fun best x => if key best < key x then x else best) c

/-- Command `summary` (`cmd_summary`): mean heat, first highest-heat record,
first highest-staleness record.  `none` models the crash of `mean`/`max` on an
empty registry. -/
def cmd_summary (today : Int) (creators : List Creator) : Option Summary :=
  match creators with
  | [] => none
  | c :: rest =>
      some { avg_heat := ((c :: rest).map Creator.heat).sum / (c :: rest).length
             hottest := pyMaxBy Creator.heat c rest
             stalest := pyMaxBy (fun x => x.staleness_days today) c rest }

/-- Arguments of the `add` subcommand.  The dates arrive parsed: `none` models
a falsy `--last-boosted` (absent or empty) and an absent `--last-seen`. -/
structure AddArgs where
  handle : String
  platform : String
  category : String
  note : String
  heat : ℚ
  last_seen : Option Int
  last_boosted : Option Int

/-- The record `cmd_add` constructs: normalized handle, `last_boosted`
defaulting to today when the argument is falsy. -/
def addRecord (today : Int) (args : AddArgs) : Creator :=
  { handle := normalize_handle args.handle
    platform := args.platform
    category := args.category
    note := args.note
    heat := args.heat
    last_seen := coerce_date today args.last_seen
    last_boosted := match args.last_boosted with
                    | some d => coerce_date today (some d)
                    | none => today }

/-- Rest of `cmd_add`: duplicate check, then append the new record and persist. -/
def cmd_add (today : Int) (args : AddArgs) (creators : List Creator) :
    Except String (List Creator) :=
  let handle := normalize_handle args.handle
  if creators.any (fun c => sameHandle c.handle handle) then
    Except.error ("Handle " ++ handle ++ " already exists.")
  else
    Except.ok (creators ++ [addRecord today args])

/-- Arguments of the `boost` subcommand (`--note` defaults to `None`). -/
structure BoostArgs where
  handle : String
  note : Option String

/-- The mutation `boost` applies to the found creator: `last_boosted = today`,
and the note is overwritten only when `args.note` is truthy (non-empty). -/
def applyBoost (today : Int) (note : Option String) (c : Creator) : Creator :=
  let c := { c with last_boosted := today }
  match note with
  | some s => if s ≠ "" then { c with note := s } else c
  | none => c

/-- Mutating the first creator whose handle matches, as
`next(c for c in creators if c.handle.lower() == handle.lower())` does. -/
def boostFirst (today : Int) (note : Option String) (handle : String) :
    List Creator → List Creator
  | [] => []
  | c :: rest =>
      if sameHandle c.handle handle then applyBoost today note c :: rest
      else c :: boostFirst today note handle rest

/-- Command `boost` (`cmd_boost`): find the creator by normalized handle
(abort when absent), set its `last_boosted` to today, optionally overwrite the
note, persist. -/
def cmd_boost (today : Int) (args : BoostArgs) (creators : List Creator) :
    Except String (List Creator) :=
  let handle := normalize_handle args.handle
  if creators.any (fun c => sameHandle c.handle handle) then
    Except.ok (boostFirst today args.note handle creators)
  else
    Except.error ("No creator named " ++ handle ++ " in the registry.")

/-- Arguments of the `agenda` subcommand. -/
structure AgendaArgs where
  window : Int
  limit : Int

/-- Comparator for `sort(key=lambda c: (c.staleness_days, c.heat), reverse=True)`:
descending lexicographic order on the pair. -/
def agendaGe (today : Int) (a b : Creator) : Bool :=
  decide (b.staleness_days today < a.staleness_days today) ||
    (decide (b.staleness_days today = a.staleness_days today) &&
      decide (b.heat ≤ a.heat))

/-- The selection of `cmd_agenda`: creators with `last_boosted ≤ today - window`. -/
def agendaSelected (today window : Int) (creators : List Creator) : List Creator :=
  creators.filter (fun c => c.last_boosted ≤ today - window)

/-- The sorted boost queue of `cmd_agenda`. -/
def agendaQueue (today window : Int) (creators : List Creator) : List Creator :=
  (agendaSelected today window creators).mergeSort (agendaGe today)

/-- What `cmd_agenda` prints: an "all boosted recently" message or the rows. -/
inductive AgendaOutput where
  | allBoosted
  | table (rows : List Creator)
deriving DecidableEq, Repr

/-- Command `agenda` (`cmd_agenda`): select stale creators, sort descending by
(staleness, heat), print the first `limit` rows (plain slice, no truthiness
test here). -/
def cmd_agenda (today : Int) (args : AgendaArgs) (creators : List Creator) :
    AgendaOutput :=
  let queued := agendaQueue today args.window creators
  if queued.isEmpty then AgendaOutput.allBoosted
  else AgendaOutput.table (pySlice args.limit queued)

/-- Stored file contents after an `add` invocation: `SystemExit` aborts before
`save_creators` runs, so the file is rewritten only on success. -/
def storeAfterAdd (today : Int) (args : AddArgs) (creators : List Creator) :
    List Creator :=
  match cmd_add today args creators with
  | Except.ok l => l
  | Except.error _ => creators

/-- Stored file contents after a `boost` invocation. -/
def storeAfterBoost (today : Int) (args : BoostArgs) (creators : List Creator) :
    List Creator :=
  match cmd_boost today args creators with
  | Except.ok l => l
  | Except.error _ => creators

/-- Stored file contents after a `list` invocation: `cmd_list` never calls
`save_creators`. -/
def storeAfterList (creators : List Creator) : List Creator := creators

/-- Stored file contents after a `summary` invocation: read-only. -/
def storeAfterSummary (creators : List Creator) : List Creator := creators

/-- Stored file contents after an `agenda` invocation: read-only. -/
def storeAfterAgenda (creators : List Creator) : List Creator := creators

/-- Sample record used in concrete witnesses. -/
def sampleA : Creator :=
  { handle := "@fjordsketch", platform := "Instagram",
    category := "watercolor timelapses", note := "keep", heat := 87/100,
    last_seen := 10, last_boosted := 4 }

/-- Second sample record used in concrete witnesses. -/
def sampleB : Creator :=
  { handle := "@auroraaudio", platform := "YouTube",
    category := "field recordings", note := "ambient", heat := 92/100,
    last_seen := 9, last_boosted := -2 }

/-- Sample record whose `last_boosted` lies in the future (reachable through
`add --last-boosted` with a future date). -/
def sampleFuture : Creator :=
  { handle := "@tomorrow", platform := "X", category := "clips", note := "soon",
    heat := 1/2, last_seen := 0, last_boosted := 1 }

/-!
Helper lemmas.
-/

/-- The `heat` comparator is transitive. -/
theorem heatGe_trans (a b c : Creator) (h1 : heatGe a b = true)
    (h2 : heatGe b c = true) : heatGe a c = true := by
  simp only [heatGe, decide_eq_true_eq] at h1 h2 ⊢
  exact le_trans h2 h1

/-- The `heat` comparator is total. -/
theorem heatGe_total (a b : Creator) : (heatGe a b || heatGe b a) = true := by
  simp only [heatGe, Bool.or_eq_true, decide_eq_true_eq]
  exact le_total b.heat a.heat

/-- The staleness comparator is transitive. -/
theorem staleGe_trans (today : Int) (a b c : Creator)
    (h1 : staleGe today a b = true) (h2 : staleGe today b c = true) :
    staleGe today a c = true := by
  simp only [staleGe, decide_eq_true_eq] at h1 h2 ⊢
  exact le_trans h2 h1

/-- The staleness comparator is total. -/
theorem staleGe_total (today : Int) (a b : Creator) :
    (staleGe today a b || staleGe today b a) = true := by
  simp only [staleGe, Bool.or_eq_true, decide_eq_true_eq]
  exact le_total (b.staleness_days today) (a.staleness_days today)

/-- An `add` aborts exactly when a case-insensitive duplicate exists. -/
theorem cmd_add_error_iff (today : Int) (args : AddArgs) (creators : List Creator) :
    (∃ e, cmd_add today args creators = Except.error e) ↔
      ∃ c ∈ creators, sameHandle c.handle (normalize_handle args.handle) = true := by
  unfold cmd_add
  rcases h : creators.any (fun c => sameHandle c.handle (normalize_handle args.handle)) with _ | _
  · simp only [h, Bool.false_eq_true, if_false]
    constructor
    · rintro ⟨e, he⟩
      exact absurd he (by simp)
    · rintro ⟨c, hc, hs⟩
      rw [List.any_eq_false] at h
      exact absurd hs (by simpa using h c hc)
  · simp only [h, if_true]
    constructor
    · rintro ⟨e, _⟩
      rw [List.any_eq_true] at h
      exact h
    · intro _
      exact ⟨_, rfl⟩

/-- A `boost` aborts exactly when no creator matches the normalized handle. -/
theorem cmd_boost_error_iff (today : Int) (args : BoostArgs) (creators : List Creator) :
    (∃ e, cmd_boost today args creators = Except.error e) ↔
      ¬ ∃ c ∈ creators, sameHandle c.handle (normalize_handle args.handle) = true := by
  unfold cmd_boost
  rcases h : creators.any (fun c => sameHandle c.handle (normalize_handle args.handle)) with _ | _
  · simp only [h, Bool.false_eq_true, if_false]
    constructor
    · rintro ⟨e, _⟩
      rw [List.any_eq_false] at h
      rintro ⟨c, hc, hs⟩
      exact absurd hs (by simpa using h c hc)
    · intro _
      exact ⟨_, rfl⟩
  · simp only [h, if_true]
    rw [List.any_eq_true] at h
    constructor
    · rintro ⟨e, he⟩
      exact absurd he (by simp)
    · intro hn
      exact absurd h hn

/-- C1: the only user-facing fatal conditions are a duplicate `add` and a
`boost` of an unknown handle; both leave the stored list unchanged (the abort
happens before any save), and `list`, `summary`, `agenda` never write. -/
theorem fatal_conditions_characterized (today : Int) (aargs : AddArgs)
    (bargs : BoostArgs) (creators : List Creator) :
    ((∃ e, cmd_add today aargs creators = Except.error e) ↔
      ∃ c ∈ creators, sameHandle c.handle (normalize_handle aargs.handle) = true)
    ∧ ((∃ e, cmd_boost today bargs creators = Except.error e) ↔
      ¬ ∃ c ∈ creators, sameHandle c.handle (normalize_handle bargs.handle) = true)
    ∧ ((∃ e, cmd_add today aargs creators = Except.error e) →
      storeAfterAdd today aargs creators = creators)
    ∧ ((∃ e, cmd_boost today bargs creators = Except.error e) →
      storeAfterBoost today bargs creators = creators)
    ∧ storeAfterList creators = creators
    ∧ storeAfterSummary creators = creators
    ∧ storeAfterAgenda creators = creators := by
  refine ⟨cmd_add_error_iff today aargs creators,
    cmd_boost_error_iff today bargs creators, ?_, ?_, rfl, rfl, rfl⟩
  · rintro ⟨e, he⟩
    unfold storeAfterAdd
    rw [he]
  · rintro ⟨e, he⟩
    unfold storeAfterBoost
    rw [he]

/-- Concrete instance of `fatal_conditions_characterized`: duplicate add of
`@FJORDSKETCH` against a registry holding `sampleA`, and boost of a handle
that is present, discharging the hypotheses of the inner implications. -/
theorem fatal_conditions_witness :
    (∃ e, cmd_add 20 ⟨"@FJORDSKETCH", "p", "c", "n", 1/2, none, none⟩ [sampleA]
        = Except.error e)
    ∧ storeAfterAdd 20 ⟨"@FJORDSKETCH", "p", "c", "n", 1/2, none, none⟩ [sampleA]
        = [sampleA]
    ∧ ¬ (∃ e, cmd_boost 20 ⟨"@fjordsketch", none⟩ [sampleA] = Except.error e) := by
  have h := fatal_conditions_characterized 20
    ⟨"@FJORDSKETCH", "p", "c", "n", 1/2, none, none⟩ ⟨"@fjordsketch", none⟩ [sampleA]
  have hdup : ∃ c ∈ [sampleA],
      sameHandle c.handle (normalize_handle "@FJORDSKETCH") = true := by
    refine ⟨sampleA, by simp, ?_⟩
    decide
  have herr := h.1.mpr hdup
  refine ⟨herr, h.2.2.1 herr, ?_⟩
  intro he
  exact (h.2.1.mp he) ⟨sampleA, by simp, by decide⟩

/-- C3: on a fresh handle, `add` appends the new record (normalized handle,
`last_boosted` defaulting to today) at the end and persists the result. -/
theorem cmd_add_appends (today : Int) (args : AddArgs) (creators : List Creator)
    (h : ∀ c ∈ creators, sameHandle c.handle (normalize_handle args.handle) = false) :
    cmd_add today args creators = Except.ok (creators ++ [addRecord today args])
    ∧ (addRecord today args).handle = normalize_handle args.handle
    ∧ (args.last_boosted = none → (addRecord today args).last_boosted = today) := by
  have hany : creators.any
      (fun c => sameHandle c.handle (normalize_handle args.handle)) = false := by
    rw [List.any_eq_false]
    intro c hc
    simp [h c hc]
  refine ⟨?_, rfl, ?_⟩
  · simp [cmd_add, hany]
  · intro hb
    simp [addRecord, hb]

/-- Concrete instance of `cmd_add_appends`: adding `newbie` to a registry
holding only `sampleA`. -/
theorem cmd_add_appends_witness :
    cmd_add 20 ⟨"newbie", "p", "c", "n", 3/10, none, none⟩ [sampleA]
      = Except.ok ([sampleA] ++ [addRecord 20 ⟨"newbie", "p", "c", "n", 3/10, none, none⟩])
    ∧ (addRecord 20 ⟨"newbie", "p", "c", "n", 3/10, none, none⟩).handle
      = normalize_handle "newbie"
    ∧ ((none : Option Int) = none →
      (addRecord 20 ⟨"newbie", "p", "c", "n", 3/10, none, none⟩).last_boosted = 20) :=
  cmd_add_appends 20 ⟨"newbie", "p", "c", "n", 3/10, none, none⟩ [sampleA] (by decide)

/-- The agenda comparator read back as a lexicographic proposition. -/
theorem agendaGe_iff (today : Int) (a b : Creator) :
    agendaGe today a b = true ↔
      (b.staleness_days today < a.staleness_days today ∨
        (b.staleness_days today = a.staleness_days today ∧ b.heat ≤ a.heat)) := by
  simp [agendaGe, Bool.or_eq_true, Bool.and_eq_true, decide_eq_true_eq]

/-- The agenda comparator is transitive. -/
theorem agendaGe_trans (today : Int) (a b c : Creator)
    (h1 : agendaGe today a b = true) (h2 : agendaGe today b c = true) :
    agendaGe today a c = true := by
  rw [agendaGe_iff] at h1 h2 ⊢
  rcases h1 with h1 | ⟨h1e, h1h⟩ <;> rcases h2 with h2 | ⟨h2e, h2h⟩
  · exact Or.inl (lt_trans h2 h1)
  · exact Or.inl (h2e ▸ h1)
  · exact Or.inl (h1e ▸ h2)
  · exact Or.inr ⟨h2e.trans h1e, le_trans h2h h1h⟩

/-- The agenda comparator is total. -/
theorem agendaGe_total (today : Int) (a b : Creator) :
    (agendaGe today a b || agendaGe today b a) = true := by
  rw [Bool.or_eq_true, agendaGe_iff, agendaGe_iff]
  rcases lt_trichotomy (b.staleness_days today) (a.staleness_days today) with h | h | h
  · exact Or.inl (Or.inl h)
  · rcases le_total b.heat a.heat with hh | hh
    · exact Or.inl (Or.inr ⟨h, hh⟩)
    · exact Or.inr (Or.inr ⟨h.symm, hh⟩)
  · exact Or.inr (Or.inl h)

/-- C4 (amended): `agenda` selects exactly the creators with
`last_boosted ≤ today - window`, sorts them descending by the pair
(staleness, heat), and with window 0 selects every creator whose
`last_boosted` is not after today. -/
theorem cmd_agenda_spec (today window : Int) (creators : List Creator) :
    (∀ c, c ∈ agendaQueue today window creators ↔
      c ∈ creators ∧ c.last_boosted ≤ today - window)
    ∧ (agendaQueue today window creators).Pairwise (fun a b =>
        b.staleness_days today < a.staleness_days today ∨
          (b.staleness_days today = a.staleness_days today ∧ b.heat ≤ a.heat))
    ∧ (agendaQueue today window creators).Perm (agendaSelected today window creators)
    ∧ (∀ c ∈ creators, c.last_boosted ≤ today → c ∈ agendaQueue today 0 creators) := by
  have hperm : ∀ w : Int, (agendaQueue today w creators).Perm
      (agendaSelected today w creators) := fun w =>
    List.mergeSort_perm (agendaSelected today w creators) (agendaGe today)
  have hmem : ∀ (w : Int) (c : Creator), c ∈ agendaQueue today w creators ↔
      c ∈ creators ∧ c.last_boosted ≤ today - w := by
    intro w c
    rw [(hperm w).mem_iff]
    simp [agendaSelected, List.mem_filter]
  refine ⟨hmem window, ?_, hperm window, ?_⟩
  · have hp := @List.sorted_mergeSort Creator (agendaGe today)
      (agendaGe_trans today) (agendaGe_total today)
      (agendaSelected today window creators)
    exact List.Pairwise.imp (fun h => (agendaGe_iff today _ _).mp h) hp
  · intro c hc hb
    rw [hmem 0 c]
    exact ⟨hc, by omega⟩

/-- Concrete instance of `cmd_agenda_spec`: with window 0, `sampleA`
(boosted in the past) is selected. -/
theorem cmd_agenda_spec_witness : sampleA ∈ agendaQueue 20 0 [sampleA] :=
  (cmd_agenda_spec 20 0 [sampleA]).2.2.2 sampleA (by simp) (by decide)

/-- Counterexample to C4 as stated: a creator whose `last_boosted` lies in
the future (reachable via `add --last-boosted`) is not selected by
`agenda --window 0`, so window 0 does not select every creator. -/
theorem cmd_agenda_window_zero_cex :
    sampleFuture ∈ [sampleFuture]
    ∧ sampleFuture ∉ agendaQueue 0 0 [sampleFuture] := by
  refine ⟨by simp, ?_⟩
  have : agendaSelected 0 0 [sampleFuture] = [] := by decide
  simp [agendaQueue, this]

/-- C5 (amended): `list` keeps exactly the creators with heat at least the
minimum (inclusive), sorts descending by heat for sort key "heat" and by
staleness otherwise, truncates to a positive supplied limit (limit `None`
means no truncation), and prints "no matches" exactly when the filter comes
back empty. -/
theorem cmd_list_spec (today : Int) (args : ListArgs) (creators : List Creator)
    (h : args.limit = none ∨ ∃ n : Int, args.limit = some n ∧ 0 < n) :
    (∀ c, c ∈ listFiltered args creators ↔ c ∈ creators ∧ args.min_heat ≤ c.heat)
    ∧ (listSorted today args creators).Perm (listFiltered args creators)
    ∧ (args.sort = "heat" →
        (listSorted today args creators).Pairwise (fun a b => b.heat ≤ a.heat))
    ∧ (args.sort ≠ "heat" →
        (listSorted today args creators).Pairwise (fun a b =>
          b.staleness_days today ≤ a.staleness_days today))
    ∧ (∀ n : Int, args.limit = some n → 0 < n →
        listTruncated today args creators = (listSorted today args creators).take n.toNat)
    ∧ (args.limit = none →
        listTruncated today args creators = listSorted today args creators)
    ∧ (cmd_list today args creators = ListOutput.noMatches ↔
        listFiltered args creators = [])
    ∧ (listFiltered args creators ≠ [] →
        cmd_list today args creators
          = ListOutput.table (listTruncated today args creators)) := by
  have hperm : (listSorted today args creators).Perm (listFiltered args creators) := by
    unfold listSorted
    split
    · exact List.mergeSort_perm _ _
    · exact List.mergeSort_perm _ _
  have hsort_eq : listSorted today args creators = []
      ↔ listFiltered args creators = [] := by
    rw [← List.length_eq_zero, ← List.length_eq_zero, hperm.length_eq]
  have htrunc : listTruncated today args creators = []
      ↔ listFiltered args creators = [] := by
    rcases h with h0 | ⟨n, hn, hpos⟩
    · rw [show listTruncated today args creators = listSorted today args creators by
        simp [listTruncated, h0]]
      exact hsort_eq
    · rw [show listTruncated today args creators
          = (listSorted today args creators).take n.toNat by
        simp [listTruncated, hn, pySlice, show (n ≠ 0) by omega,
          show (0 : Int) ≤ n by omega]]
      rw [List.take_eq_nil_iff]
      constructor
      · rintro (hns | hnil)
        · exact absurd hns (by omega)
        · exact hsort_eq.mp hnil
      · intro hf
        exact Or.inr (hsort_eq.mpr hf)
  refine ⟨?_, hperm, ?_, ?_, ?_, ?_, ?_, ?_⟩
  · intro c
    simp [listFiltered, List.mem_filter]
  · intro hs
    have hb : (args.sort == "heat") = true := by simp [hs]
    have hp := @List.sorted_mergeSort Creator heatGe
      heatGe_trans heatGe_total (listFiltered args creators)
    rw [show listSorted today args creators
        = (listFiltered args creators).mergeSort heatGe by simp [listSorted, hb]]
    exact List.Pairwise.imp (fun hle => by
      simpa [heatGe, decide_eq_true_eq] using hle) hp
  · intro hs
    have hb : (args.sort == "heat") = false := by simp [hs]
    have hp := @List.sorted_mergeSort Creator (staleGe today)
      (staleGe_trans today) (staleGe_total today) (listFiltered args creators)
    rw [show listSorted today args creators
        = (listFiltered args creators).mergeSort (staleGe today) by
      simp [listSorted, hb]]
    exact List.Pairwise.imp (fun hle => by
      simpa [staleGe, decide_eq_true_eq] using hle) hp
  · intro n hn hpos
    simp [listTruncated, hn, pySlice, show (n ≠ 0) by omega,
      show (0 : Int) ≤ n by omega]
  · intro h0
    simp [listTruncated, h0]
  · unfold cmd_list
    split
    · rename_i he
      rw [List.isEmpty_iff] at he
      simp only [true_iff]
      exact htrunc.mp he
    · rename_i he
      rw [List.isEmpty_iff] at he
      constructor
      · intro hx
        exact absurd hx (by simp)
      · intro hf
        exact absurd (htrunc.mpr hf) he
  · intro hf
    unfold cmd_list
    split
    · rename_i he
      rw [List.isEmpty_iff] at he
      exact absurd (htrunc.mp he) hf
    · rfl

/-- Concrete instance of `cmd_list_spec`: listing a one-record registry with
no limit prints that record as the single table row. -/
theorem cmd_list_spec_witness :
    cmd_list 20 ⟨none, "heat", 0⟩ [sampleA]
      = ListOutput.table (listTruncated 20 ⟨none, "heat", 0⟩ [sampleA]) :=
  (cmd_list_spec 20 ⟨none, "heat", 0⟩ [sampleA] (Or.inl rfl)).2.2.2.2.2.2.2
    (by norm_num [listFiltered, sampleA])

/-- Counterexample to C5 as stated: with `--limit 0` (a supplied limit) no
truncation happens, so the single matching record is still printed, not zero
records. -/
theorem cmd_list_limit_zero_cex :
    cmd_list 20 ⟨some 0, "heat", 0⟩ [sampleA] = ListOutput.table [sampleA]
    ∧ ListOutput.table [sampleA]
      ≠ ListOutput.table ((listSorted 20 ⟨some 0, "heat", 0⟩ [sampleA]).take 0) := by
  have hf : listFiltered ⟨some 0, "heat", 0⟩ [sampleA] = [sampleA] := by
    norm_num [listFiltered, sampleA]
  have hs : listSorted 20 ⟨some 0, "heat", 0⟩ [sampleA] = [sampleA] := by
    simp [listSorted, hf, List.mergeSort_singleton]
  constructor
  · simp [cmd_list, listTruncated, hs]
  · simp [hs]

/-- C9: a limit of 0 is falsy in `if args.limit:`, so `list --limit 0`
behaves exactly like `list` with no limit at all. -/
theorem cmd_list_limit_zero_no_truncation (today : Int) (args : ListArgs)
    (creators : List Creator) (h : args.limit = some 0) :
    cmd_list today args creators
      = cmd_list today ⟨none, args.sort, args.min_heat⟩ creators := by
  have ht : listTruncated today args creators
      = listTruncated today ⟨none, args.sort, args.min_heat⟩ creators := by
    simp [listTruncated, h]
    rfl
  simp [cmd_list, ht]

/-- Concrete instance of `cmd_list_limit_zero_no_truncation` at a one-record
registry. -/
theorem cmd_list_limit_zero_no_truncation_witness :
    cmd_list 20 ⟨some 0, "heat", 0⟩ [sampleA]
      = cmd_list 20 ⟨none, "heat", 0⟩ [sampleA] :=
  cmd_list_limit_zero_no_truncation 20 ⟨some 0, "heat", 0⟩ [sampleA] rfl

/-- Fields of the boosted creator: everything except the note is as before,
apart from `last_boosted`, which becomes today. -/
theorem applyBoost_fields (today : Int) (note : Option String) (c : Creator) :
    (applyBoost today note c).handle = c.handle
    ∧ (applyBoost today note c).platform = c.platform
    ∧ (applyBoost today note c).category = c.category
    ∧ (applyBoost today note c).heat = c.heat
    ∧ (applyBoost today note c).last_seen = c.last_seen
    ∧ (applyBoost today note c).last_boosted = today := by
  unfold applyBoost
  cases note with
  | none => exact ⟨rfl, rfl, rfl, rfl, rfl, rfl⟩
  | some s =>
    by_cases hs : s = ""
    · simp [hs]
    · simp [hs]

/-- The note after a boost: unchanged for a falsy note argument, overwritten
for a non-empty one. -/
theorem applyBoost_note (today : Int) (note : Option String) (c : Creator) :
    ((note = none ∨ note = some "") → (applyBoost today note c).note = c.note)
    ∧ (∀ s, note = some s → s ≠ "" → (applyBoost today note c).note = s) := by
  constructor
  · rintro (h | h) <;> simp [applyBoost, h]
  · intro s hs hne
    simp [applyBoost, hs, hne]

/-- Decomposition of `boostFirst` when some creator matches: the registry
splits into a non-matching front part, the first match (which gets boosted),
and an untouched tail. -/
theorem boostFirst_decomp (today : Int) (note : Option String) (handle : String)
    (creators : List Creator)
    (h : creators.any (fun c => sameHandle c.handle handle) = true) :
    ∃ pre tgt post, creators = pre ++ tgt :: post
      ∧ (∀ x ∈ pre, sameHandle x.handle handle = false)
      ∧ sameHandle tgt.handle handle = true
      ∧ boostFirst today note handle creators
          = pre ++ applyBoost today note tgt :: post := by
  induction creators with
  | nil => simp at h
  | cons c rest ih =>
    cases hc : sameHandle c.handle handle with
    | true => exact ⟨[], c, rest, rfl, by simp, hc, by simp [boostFirst, hc]⟩
    | false =>
      have hrest : rest.any (fun x => sameHandle x.handle handle) = true := by
        rw [List.any_cons, hc] at h
        simpa using h
      rcases ih hrest with ⟨pre, tgt, post, he, hpre, htgt, hb⟩
      refine ⟨c :: pre, tgt, post, by simp [he], ?_, htgt, ?_⟩
      · intro x hx
        rcases List.mem_cons.mp hx with hx | hx
        · rw [hx]
          exact hc
        · exact hpre x hx
      · simp [boostFirst, hc, hb]

/-- A successful `boost` returns the `boostFirst` rewrite of the registry. -/
theorem cmd_boost_ok (today : Int) (args : BoostArgs) (creators l' : List Creator)
    (h : cmd_boost today args creators = Except.ok l') :
    l' = boostFirst today args.note (normalize_handle args.handle) creators
    ∧ creators.any
        (fun c => sameHandle c.handle (normalize_handle args.handle)) = true := by
  simp only [cmd_boost] at h
  split at h
  · rename_i hc
    cases h
    exact ⟨rfl, hc⟩
  · simp at h

/-- C10: a successful boost changes only the first matching creator, and of
that creator only `last_boosted` and (for a non-empty note argument) `note`;
handle, platform, category, heat, last_seen and every other record are
untouched, and a falsy note argument (absent or empty) leaves the note alone. -/
theorem cmd_boost_frame (today : Int) (args : BoostArgs) (creators l' : List Creator)
    (h : cmd_boost today args creators = Except.ok l') :
    ∃ pre tgt post,
      creators = pre ++ tgt :: post
      ∧ l' = pre ++ applyBoost today args.note tgt :: post
      ∧ sameHandle tgt.handle (normalize_handle args.handle) = true
      ∧ (∀ x ∈ pre, sameHandle x.handle (normalize_handle args.handle) = false)
      ∧ (applyBoost today args.note tgt).handle = tgt.handle
      ∧ (applyBoost today args.note tgt).platform = tgt.platform
      ∧ (applyBoost today args.note tgt).category = tgt.category
      ∧ (applyBoost today args.note tgt).heat = tgt.heat
      ∧ (applyBoost today args.note tgt).last_seen = tgt.last_seen
      ∧ (applyBoost today args.note tgt).last_boosted = today
      ∧ ((args.note = none ∨ args.note = some "") →
          (applyBoost today args.note tgt).note = tgt.note)
      ∧ (∀ s, args.note = some s → s ≠ "" →
          (applyBoost today args.note tgt).note = s) := by
  rcases cmd_boost_ok today args creators l' h with ⟨hl, hany⟩
  rcases boostFirst_decomp today args.note (normalize_handle args.handle)
    creators hany with ⟨pre, tgt, post, he, hpre, htgt, hb⟩
  rcases applyBoost_fields today args.note tgt with ⟨f1, f2, f3, f4, f5, f6⟩
  rcases applyBoost_note today args.note tgt with ⟨n1, n2⟩
  exact ⟨pre, tgt, post, he, hl.trans hb, htgt, hpre,
    f1, f2, f3, f4, f5, f6, n1, n2⟩

/-- Concrete instance of `cmd_boost_frame`: boosting `sampleA` (case-changed
handle, no note) yields the same record with only `last_boosted` updated. -/
theorem cmd_boost_frame_witness :
    ∃ pre tgt post,
      [sampleA] = pre ++ tgt :: post
      ∧ [{ sampleA with last_boosted := 20 }]
          = pre ++ applyBoost 20 none tgt :: post
      ∧ sameHandle tgt.handle (normalize_handle "@FjordSketch") = true
      ∧ (∀ x ∈ pre, sameHandle x.handle (normalize_handle "@FjordSketch") = false)
      ∧ (applyBoost 20 none tgt).handle = tgt.handle
      ∧ (applyBoost 20 none tgt).platform = tgt.platform
      ∧ (applyBoost 20 none tgt).category = tgt.category
      ∧ (applyBoost 20 none tgt).heat = tgt.heat
      ∧ (applyBoost 20 none tgt).last_seen = tgt.last_seen
      ∧ (applyBoost 20 none tgt).last_boosted = 20
      ∧ (((none : Option String) = none ∨ (none : Option String) = some "") →
          (applyBoost 20 none tgt).note = tgt.note)
      ∧ (∀ s, (none : Option String) = some s → s ≠ "" →
          (applyBoost 20 none tgt).note = s) :=
  cmd_boost_frame 20 ⟨"@FjordSketch", none⟩ [sampleA]
    [{ sampleA with last_boosted := 20 }] (by rfl)

/-- C2 (amended): when some creator matches the normalized handle, `boost`
sets the first match's `last_boosted` to today — so its staleness becomes
0 — and persists the updated list; a non-empty note argument overwrites
that creator's note. -/
theorem cmd_boost_updates (today : Int) (args : BoostArgs) (creators : List Creator)
    (h : ∃ c ∈ creators, sameHandle c.handle (normalize_handle args.handle) = true) :
    ∃ pre tgt post,
      creators = pre ++ tgt :: post
      ∧ sameHandle tgt.handle (normalize_handle args.handle) = true
      ∧ cmd_boost today args creators
          = Except.ok (pre ++ applyBoost today args.note tgt :: post)
      ∧ (applyBoost today args.note tgt).last_boosted = today
      ∧ Creator.staleness_days today (applyBoost today args.note tgt) = 0
      ∧ (∀ s, args.note = some s → s ≠ "" →
          (applyBoost today args.note tgt).note = s) := by
  have hany : creators.any
      (fun c => sameHandle c.handle (normalize_handle args.handle)) = true := by
    rcases h with ⟨c, hc, hs⟩
    exact List.any_eq_true.mpr ⟨c, hc, hs⟩
  rcases boostFirst_decomp today args.note (normalize_handle args.handle)
    creators hany with ⟨pre, tgt, post, he, _, htgt, hb⟩
  rcases applyBoost_fields today args.note tgt with ⟨_, _, _, _, _, f6⟩
  refine ⟨pre, tgt, post, he, htgt, ?_, f6, ?_,
    (applyBoost_note today args.note tgt).2⟩
  · simp only [cmd_boost]
    rw [hany]
    simp [hb]
  · unfold Creator.staleness_days
    omega

/-- Concrete instance of `cmd_boost_updates`: boosting `sampleA` with the
note `"new"`. -/
theorem cmd_boost_updates_witness :
    ∃ pre tgt post,
      [sampleA] = pre ++ tgt :: post
      ∧ sameHandle tgt.handle (normalize_handle "@fjordsketch") = true
      ∧ cmd_boost 20 ⟨"@fjordsketch", some "new"⟩ [sampleA]
          = Except.ok (pre ++ applyBoost 20 (some "new") tgt :: post)
      ∧ (applyBoost 20 (some "new") tgt).last_boosted = 20
      ∧ Creator.staleness_days 20 (applyBoost 20 (some "new") tgt) = 0
      ∧ (∀ s, (some "new" : Option String) = some s → s ≠ "" →
          (applyBoost 20 (some "new") tgt).note = s) :=
  cmd_boost_updates 20 ⟨"@fjordsketch", some "new"⟩ [sampleA] (by decide)

/-- Counterexample to C2 as stated: `--note ""` is a provided note argument,
but Python's `if args.note:` is false for the empty string, so the stored
note stays `"keep"` instead of being overwritten with `""`. -/
theorem cmd_boost_empty_note_cex :
    cmd_boost 20 ⟨"@fjordsketch", some ""⟩ [sampleA]
      = Except.ok [{ sampleA with last_boosted := 20 }]
    ∧ ({ sampleA with last_boosted := 20 } : Creator).note = "keep"
    ∧ ("keep" : String) ≠ "" :=
  ⟨by rfl, rfl, by decide⟩

/-- Rounding to two decimals is idempotent. -/
theorem round2_idem (q : ℚ) : round2 (round2 q) = round2 q := by
  unfold round2
  have h100 : ((round (q * 100) : ℤ) : ℚ) / 100 * 100
      = ((round (q * 100) : ℤ) : ℚ) := div_mul_cancel₀ _ (by norm_num)
  rw [h100, round_intCast]

/-- C6: saving and reloading reproduces every record, with all string fields
and both dates identical and heat agreeing to 2-decimal precision (it comes
back as the 2-decimal rounding of the original value). -/
theorem save_load_roundtrip (today : Int) (l : List Creator) :
    load_creators today (save_creators l)
      = l.map (fun c => { c with heat := round2 c.heat })
    ∧ List.Forall₂ (fun a b => a.handle = b.handle ∧ a.platform = b.platform
        ∧ a.category = b.category ∧ a.note = b.note ∧ a.last_seen = b.last_seen
        ∧ a.last_boosted = b.last_boosted ∧ round2 a.heat = round2 b.heat)
      (load_creators today (save_creators l)) l := by
  have h1 : load_creators today (save_creators l)
      = l.map (fun c => { c with heat := round2 c.heat }) := by
    unfold load_creators save_creators
    rw [List.map_map]
    congr 1
  refine ⟨h1, ?_⟩
  rw [h1]
  clear h1
  induction l with
  | nil => exact List.Forall₂.nil
  | cons c rest ih =>
    exact List.Forall₂.cons ⟨rfl, rfl, rfl, rfl, rfl, rfl, round2_idem c.heat⟩ ih

/-- The Python `max` fold picks an element of the list it scans. -/
theorem pyMaxBy_mem {β : Type} [LinearOrder β] (key : Creator → β) (c : Creator)
    (l : List Creator) : pyMaxBy key c l ∈ c :: l := by
  induction l generalizing c with
  | nil => simp [pyMaxBy]
  | cons x xs ih =>
    rw [show pyMaxBy key c (x :: xs)
        = pyMaxBy key (if key c < key x then x else c) xs from rfl]
    have h := ih (if key c < key x then x else c)
    rcases List.mem_cons.mp h with h1 | h1
    · rw [h1]
      split
      · exact List.mem_cons_of_mem _ (List.mem_cons_self _ _)
      · exact List.mem_cons_self _ _
    · exact List.mem_cons_of_mem _ (List.mem_cons_of_mem _ h1)

/-- The Python `max` fold dominates every scanned element. -/
theorem pyMaxBy_le {β : Type} [LinearOrder β] (key : Creator → β) (c : Creator)
    (l : List Creator) : ∀ x ∈ c :: l, key x ≤ key (pyMaxBy key c l) := by
  induction l generalizing c with
  | nil =>
    intro x hx
    rcases List.mem_cons.mp hx with h | h
    · rw [h]
      exact le_refl _
    · simp at h
  | cons y ys ih =>
    intro x hx
    have hfc : key c ≤ key (if key c < key y then y else c) := by
      split
      · rename_i hlt
        exact le_of_lt hlt
      · exact le_refl _
    have hfy : key y ≤ key (if key c < key y then y else c) := by
      split
      · exact le_refl _
      · rename_i hnlt
        exact le_of_not_lt hnlt
    have hrec := ih (if key c < key y then y else c)
    have hhead := hrec _ (List.mem_cons_self _ _)
    rw [show pyMaxBy key c (y :: ys)
        = pyMaxBy key (if key c < key y then y else c) ys from rfl]
    rcases List.mem_cons.mp hx with h | h
    · rw [h]
      exact le_trans hfc hhead
    · rcases List.mem_cons.mp h with h2 | h2
      · rw [h2]
        exact le_trans hfy hhead
      · exact hrec x (List.mem_cons_of_mem _ h2)

/-- C7: on a non-empty registry, `summary` reports a hottest record attaining
the maximum heat, a stalest record attaining the maximum staleness, and the
arithmetic mean of the heat values. -/
theorem cmd_summary_spec (today : Int) (creators : List Creator)
    (h : creators ≠ []) :
    ∃ s, cmd_summary today creators = some s
      ∧ s.hottest ∈ creators
      ∧ (∀ c ∈ creators, c.heat ≤ s.hottest.heat)
      ∧ s.stalest ∈ creators
      ∧ (∀ c ∈ creators, c.staleness_days today ≤ s.stalest.staleness_days today)
      ∧ s.avg_heat = (creators.map Creator.heat).sum / creators.length := by
  cases creators with
  | nil => exact absurd rfl h
  | cons c rest =>
    refine ⟨_, rfl, ?_, ?_, ?_, ?_, rfl⟩
    · exact pyMaxBy_mem Creator.heat c rest
    · exact pyMaxBy_le Creator.heat c rest
    · exact pyMaxBy_mem (fun x => x.staleness_days today) c rest
    · exact pyMaxBy_le (fun x => x.staleness_days today) c rest

/-- Concrete instance of `cmd_summary_spec` on a two-record registry. -/
theorem cmd_summary_spec_witness :
    ∃ s, cmd_summary 20 [sampleA, sampleB] = some s
      ∧ s.hottest ∈ [sampleA, sampleB]
      ∧ (∀ c ∈ [sampleA, sampleB], c.heat ≤ s.hottest.heat)
      ∧ s.stalest ∈ [sampleA, sampleB]
      ∧ (∀ c ∈ [sampleA, sampleB],
          c.staleness_days 20 ≤ s.stalest.staleness_days 20)
      ∧ s.avg_heat = (([sampleA, sampleB].map Creator.heat).sum
          / ([sampleA, sampleB] : List Creator).length) :=
  cmd_summary_spec 20 [sampleA, sampleB] (by decide)

/-- Boosting never changes any handle: the handle column is preserved. -/
theorem boostFirst_map_handle (today : Int) (note : Option String)
    (handle : String) (l : List Creator) :
    (boostFirst today note handle l).map Creator.handle
      = l.map Creator.handle := by
  induction l with
  | nil => rfl
  | cons c rest ih =>
    cases hc : sameHandle c.handle handle with
    | true => simp [boostFirst, hc, (applyBoost_fields today note c).1]
    | false => simp [boostFirst, hc, ih]

/-- C8: case-insensitive uniqueness of handles is preserved by every exposed
operation, and no operation deletes a record — `add` only appends a fresh
handle, `boost` rewrites one record in place keeping its handle, and `list`,
`summary`, `agenda` never write the store at all. -/
theorem handle_uniqueness_invariant (today : Int) (aargs : AddArgs)
    (bargs : BoostArgs) (creators : List Creator)
    (hnd : (creators.map (fun c => strLower c.handle)).Nodup) :
    ((storeAfterAdd today aargs creators).map (fun c => strLower c.handle)).Nodup
    ∧ (∀ c ∈ creators, ∃ c' ∈ storeAfterAdd today aargs creators,
        c'.handle = c.handle)
    ∧ ((storeAfterBoost today bargs creators).map (fun c => strLower c.handle)).Nodup
    ∧ (∀ c ∈ creators, ∃ c' ∈ storeAfterBoost today bargs creators,
        c'.handle = c.handle)
    ∧ storeAfterList creators = creators
    ∧ storeAfterSummary creators = creators
    ∧ storeAfterAgenda creators = creators := by
  have hadd : storeAfterAdd today aargs creators = creators
      ∨ storeAfterAdd today aargs creators
        = creators ++ [addRecord today aargs]
          ∧ ∀ c ∈ creators,
            sameHandle c.handle (normalize_handle aargs.handle) = false := by
    unfold storeAfterAdd
    split
    · rename_i l heq
      simp only [cmd_add] at heq
      split at heq
      · simp at heq
      · rename_i hfalse
        cases heq
        rw [Bool.not_eq_true, List.any_eq_false] at hfalse
        exact Or.inr ⟨rfl, fun c hc => by simpa using hfalse c hc⟩
    · exact Or.inl rfl
  have hboost : storeAfterBoost today bargs creators = creators
      ∨ storeAfterBoost today bargs creators
        = boostFirst today bargs.note (normalize_handle bargs.handle) creators := by
    unfold storeAfterBoost
    split
    · rename_i l heq
      simp only [cmd_boost] at heq
      split at heq
      · cases heq
        exact Or.inr rfl
      · simp at heq
    · exact Or.inl rfl
  refine ⟨?_, ?_, ?_, ?_, rfl, rfl, rfl⟩
  · rcases hadd with he | ⟨he, hfresh⟩
    · rw [he]
      exact hnd
    · rw [he, List.map_append, List.nodup_append]
      refine ⟨hnd, List.nodup_singleton _, ?_⟩
      intro a ha hb
      simp only [List.map_cons, List.map_nil, List.mem_singleton] at hb
      rcases List.mem_map.mp ha with ⟨c, hc, hlc⟩
      have hne : strLower c.handle ≠ strLower (normalize_handle aargs.handle) := by
        have := hfresh c hc
        simpa [sameHandle] using this
      rw [show (addRecord today aargs).handle = normalize_handle aargs.handle
        from rfl] at hb
      exact hne (hlc.trans hb)
  · intro c hc
    rcases hadd with he | ⟨he, _⟩
    · exact ⟨c, by rw [he]; exact hc, rfl⟩
    · exact ⟨c, by rw [he]; exact List.mem_append_left _ hc, rfl⟩
  · rcases hboost with he | he
    · rw [he]
      exact hnd
    · have hmap : (storeAfterBoost today bargs creators).map Creator.handle
          = creators.map Creator.handle := by
        rw [he]
        exact boostFirst_map_handle today bargs.note (normalize_handle bargs.handle)
          creators
      have : (storeAfterBoost today bargs creators).map (fun c => strLower c.handle)
          = creators.map (fun c => strLower c.handle) := by
        have := congrArg (List.map strLower) hmap
        simpa [List.map_map, Function.comp] using this
      rw [this]
      exact hnd
  · intro c hc
    rcases hboost with he | he
    · exact ⟨c, by rw [he]; exact hc, rfl⟩
    · have hmap : (storeAfterBoost today bargs creators).map Creator.handle
          = creators.map Creator.handle := by
        rw [he]
        exact boostFirst_map_handle today bargs.note (normalize_handle bargs.handle)
          creators
      have hin : c.handle ∈ (storeAfterBoost today bargs creators).map Creator.handle := by
        rw [hmap]
        exact List.mem_map_of_mem Creator.handle hc
      rcases List.mem_map.mp hin with ⟨c', hc', heq⟩
      exact ⟨c', hc', heq⟩

/-- Concrete instance of `handle_uniqueness_invariant`: a one-record registry
(whose lowered handle list is duplicate-free) after an `add` of a new handle
and a `boost`. -/
theorem handle_uniqueness_invariant_witness :
    ((storeAfterAdd 20 ⟨"newbie", "p", "c", "n", 3/10, none, none⟩ [sampleA]).map
        (fun c => strLower c.handle)).Nodup
    ∧ (∀ c ∈ [sampleA], ∃ c' ∈ storeAfterAdd 20
        ⟨"newbie", "p", "c", "n", 3/10, none, none⟩ [sampleA],
        c'.handle = c.handle)
    ∧ ((storeAfterBoost 20 ⟨"@fjordsketch", none⟩ [sampleA]).map
        (fun c => strLower c.handle)).Nodup
    ∧ (∀ c ∈ [sampleA], ∃ c' ∈ storeAfterBoost 20 ⟨"@fjordsketch", none⟩ [sampleA],
        c'.handle = c.handle)
    ∧ storeAfterList [sampleA] = [sampleA]
    ∧ storeAfterSummary [sampleA] = [sampleA]
    ∧ storeAfterAgenda [sampleA] = [sampleA] :=
  handle_uniqueness_invariant 20 ⟨"newbie", "p", "c", "n", 3/10, none, none⟩
    ⟨"@fjordsketch", none⟩ [sampleA] (by decide)
